import Mathlib

/-!
A verification development for the instruction / function layer of the
snarkVM program model (console `program` crate: `function/mod.rs`,
`function/instruction/mod.rs`, and the bytecode `hash/ped1024.rs`).

The Rust source is shallowly embedded: pure functions become Lean
functions, `Result<T>` becomes `Except String T`, stateful register-file
mutation becomes explicit state passing, and machine integers become
`Nat` with explicit `% 2 ^ w` where overflow matters.

Components whose source is not part of the excerpt (operands, literals,
the register file, the per-opcode operation bodies, the network
constants) are modelled from the specification; each such definition
carries a doc comment starting with `Modelled from the spec:`.
-/

set_option maxRecDepth 8192

namespace SnarkVM

/-! ## Visibility modes, identifiers and literals -/

/-- Modelled from the spec: the visibility tag carried by every literal
(§3): public or private. -/
inductive Mode where
  | Public
  | Private
deriving DecidableEq, Repr

/-- Modelled from the spec: integer bit widths of the fixed-width
signed/unsigned integer literal kinds (8/16/32/64/128 bits). -/
inductive IntWidth where
  | w8
  | w16
  | w32
  | w64
  | w128
deriving DecidableEq, Repr

/-- The number of bits of an integer width. -/
def IntWidth.bits : IntWidth → Nat
  | .w8 => 8
  | .w16 => 16
  | .w32 => 32
  | .w64 => 64
  | .w128 => 128

/-- Modelled from the spec: program identifiers (names of composites,
members, functions); the source `Identifier` type is not in the excerpt.
An identifier is a byte string; well-formedness constrains it to a
nonempty ASCII name of at most 31 bytes starting with a lowercase
letter. -/
structure Identifier where
  name : List Nat
deriving DecidableEq, Repr

/-- Whether a byte may appear in an identifier: lowercase letter, digit,
or underscore. -/
def idByteOk (c : Nat) : Bool :=
  (97 ≤ c && c ≤ 122) || (48 ≤ c && c ≤ 57) || c == 95

/-- Whether a byte is a lowercase ASCII letter. -/
def idByteAlpha (c : Nat) : Bool :=
  97 ≤ c && c ≤ 122

/-- Well-formedness of an identifier. -/
def Identifier.wf (i : Identifier) : Bool :=
  !i.name.isEmpty && i.name.length ≤ 31
    && i.name.all idByteOk
    && (match i.name with
        | [] => false
        | c :: _ => idByteAlpha c)

/-- Modelled from the spec: the size of the field, the prime modulus of
the base field of the program's curve. The spec treats field arithmetic
as an external capability; the model fixes the modulus as a constant
(the BLS12-377 scalar field / Edwards-BLS12 base field prime). -/
def fieldModulus : Nat :=
  8444461749428370424248824938781546531375899335154063827935233455917409239041

/-- Modelled from the spec: the size of the elliptic-curve scalar field,
likewise treated as an externally fixed constant. -/
def scalarModulus : Nat :=
  2111115437357092606062206234695386632838870926408408195193685246394721360383

/-- Modelled from the spec: the payload of a literal (§3): a single
typed scalar tagged by its kind — boolean, field element, group
element, signed/unsigned fixed-width integer, curve scalar, address, or
string. Numeric payloads are carried as `Nat`; fixed-width integers
carry their raw two's-complement bit pattern; strings carry their
bytes. -/
inductive LiteralValue where
  | boolean (b : Bool)
  | field (v : Nat)
  | group (v : Nat)
  | intLit (signed : Bool) (w : IntWidth) (v : Nat)
  | scalar (v : Nat)
  | address (v : Nat)
  | str (s : List Nat)
deriving DecidableEq, Repr

/-- Well-formedness (constructibility) of a literal payload: every
numeric payload is within its kind's range, string bytes are bytes and
the string length fits the codec's 16-bit length field. -/
def LiteralValue.wf : LiteralValue → Bool
  | .boolean _ => true
  | .field v => v < fieldModulus
  | .group v => v < fieldModulus
  | .intLit _ w v => v < 2 ^ w.bits
  | .scalar v => v < scalarModulus
  | .address v => v < fieldModulus
  | .str s => s.length < 2 ^ 16 && s.all (· < 256)

/-- Modelled from the spec: a literal is a typed scalar payload together
with a visibility tag (§3). -/
structure Literal where
  value : LiteralValue
  mode : Mode
deriving DecidableEq, Repr

/-- Well-formedness of a literal. -/
def Literal.wf (l : Literal) : Bool := l.value.wf

/-- Modelled from the spec: a value is either a single literal or a
composite — a named structure holding an ordered sequence of
independently visibility-tagged literal members (§3). -/
inductive Value where
  | literal (l : Literal)
  | composite (name : Identifier) (members : List Literal)
deriving DecidableEq, Repr

/-! ## Registers and operands -/

/-- Modelled from the spec: a register address identifies a storage slot
by a numeric locator and may additionally carry a nonempty path of
member names addressing into a structured value (§3). -/
inductive Register where
  | locator (n : Nat)
  | member (n : Nat) (path : List Identifier)
deriving DecidableEq, Repr

/-- Well-formedness of a register address: the locator fits in 64 bits;
a member path is nonempty, fits the codec's count byte, and holds
well-formed identifiers. -/
def Register.wf : Register → Bool
  | .locator n => n < 2 ^ 64
  | .member n path =>
      n < 2 ^ 64 && !path.isEmpty && path.length < 256 && path.all Identifier.wf

/-- Modelled from the spec: an operand is either a literal constant
embedded in the instruction or a register address resolved at
evaluation time (§3). -/
inductive Operand where
  | literal (l : Literal)
  | register (r : Register)
deriving DecidableEq, Repr

/-- Well-formedness of an operand. -/
def Operand.wf : Operand → Bool
  | .literal l => l.wf
  | .register r => r.wf

/-- Modelled from the spec: the payload shared by all binary arithmetic
opcodes — exactly two operands and one destination register (§3,
"Operation"). -/
structure BinaryOperation where
  first : Operand
  second : Operand
  destination : Register
deriving DecidableEq, Repr

/-- Well-formedness of a binary operation payload. -/
def BinaryOperation.wf (op : BinaryOperation) : Bool :=
  op.first.wf && op.second.wf && op.destination.wf

/-- The instruction enum of `function/instruction/mod.rs`: the closed
tagged union over the eight active operations, in the order they appear
in the source's variant list (which fixes their binary discriminants):
Add, AddWrapped, Div, DivWrapped, Mul, MulWrapped, Sub, SubWrapped. -/
inductive Instruction where
  | Add (op : BinaryOperation)
  | AddWrapped (op : BinaryOperation)
  | Div (op : BinaryOperation)
  | DivWrapped (op : BinaryOperation)
  | Mul (op : BinaryOperation)
  | MulWrapped (op : BinaryOperation)
  | Sub (op : BinaryOperation)
  | SubWrapped (op : BinaryOperation)
deriving DecidableEq, Repr

/-- The operation payload of an instruction (`Instruction::operands` /
`Instruction::destination` dispatch uniformly to the active variant). -/
def Instruction.operation : Instruction → BinaryOperation
  | .Add op => op
  | .AddWrapped op => op
  | .Div op => op
  | .DivWrapped op => op
  | .Mul op => op
  | .MulWrapped op => op
  | .Sub op => op
  | .SubWrapped op => op

/-- `Instruction::operands`: the operand list of the active operation. -/
def Instruction.operands (i : Instruction) : List Operand :=
  [i.operation.first, i.operation.second]

/-- `Instruction::destination`: the destination register of the active
operation. -/
def Instruction.destination (i : Instruction) : Register :=
  i.operation.destination

/-- Well-formedness of an instruction. -/
def Instruction.wf (i : Instruction) : Bool :=
  i.operation.wf

/-! ## The register file (Stack) -/

/-- Equality of `Except` results is decidable when both components'
equalities are. -/
instance {ε α : Type} [DecidableEq ε] [DecidableEq α] :
    DecidableEq (Except ε α) := fun x y =>
  match x, y with
  | .ok a, .ok b =>
      if h : a = b then isTrue (by rw [h])
      else isFalse (fun hh => h (Except.ok.inj hh))
  | .error a, .error b =>
      if h : a = b then isTrue (by rw [h])
      else isFalse (fun hh => h (Except.error.inj hh))
  | .ok _, .error _ => isFalse (fun hh => Except.noConfusion hh)
  | .error _, .ok _ => isFalse (fun hh => Except.noConfusion hh)

/-- Modelled from the spec: the register file consumed by evaluation
(§2, §6): a mapping from register addresses to values supporting
`assign` and `load`, with `load` on an undefined address failing. The
model carries it as an association list. -/
def Stack : Type := List (Register × Value)

instance : DecidableEq Stack := inferInstanceAs (DecidableEq (List (Register × Value)))

/-- `load`: look a register up in the register file; fails (returns
`none`) on an undefined address. -/
def Stack.load (st : Stack) (r : Register) : Option Value :=
  match st with
  | [] => none
  | (r₀, v) :: rest => if r₀ = r then some v else Stack.load rest r

/-- `assign`: write a value to a register, overwriting any previous
binding. -/
def Stack.store (st : Stack) (r : Register) (v : Value) : Stack :=
  match st with
  | [] => [(r, v)]
  | (r₀, v₀) :: rest =>
      if r₀ = r then (r₀, v) :: rest else (r₀, v₀) :: Stack.store rest r v

/-- Modelled from the spec: operand resolution (§3): a literal operand
is its embedded constant; a register operand is loaded from the
register file, failing if undefined. -/
def resolveOperand (st : Stack) : Operand → Option Value
  | .literal l => some (Value.literal l)
  | .register r => st.load r

/-! ## Integer arithmetic semantics -/

/-- The signed or unsigned value denoted by the raw two's-complement
bit pattern `v` at width `w`. -/
def intVal (signed : Bool) (w : IntWidth) (v : Nat) : Int :=
  if signed ∧ 2 ^ (w.bits - 1) ≤ v then (v : Int) - 2 ^ w.bits else (v : Int)

/-- Whether the exact integer `r` is representable at width `w` with the
given signedness. -/
def inRange (signed : Bool) (w : IntWidth) (r : Int) : Bool :=
  if signed then -(2 ^ (w.bits - 1) : Int) ≤ r && r < 2 ^ (w.bits - 1)
  else 0 ≤ r && r < 2 ^ w.bits

/-- The raw two's-complement bit pattern of the integer `r` reduced
modulo `2 ^ w`. -/
def wrap (w : IntWidth) (r : Int) : Nat :=
  (r % (2 ^ w.bits : Int)).toNat

/-- The four arithmetic capabilities that come in non-wrapped and
wrapped forms. -/
inductive ArithKind where
  | add
  | sub
  | mul
  | div
deriving DecidableEq, Repr

/-- Modelled from the spec: the exact mathematical result of an
arithmetic capability on the two integer operands (§4.1): addition,
subtraction, multiplication, or truncating division; `none` exactly
when dividing by zero. -/
def intResult (k : ArithKind) (signed : Bool) (w : IntWidth) (va vb : Nat) :
    Option Int :=
  let ia := intVal signed w va
  let ib := intVal signed w vb
  match k with
  | .add => some (ia + ib)
  | .sub => some (ia - ib)
  | .mul => some (ia * ib)
  | .div => if ib = 0 then none else some (ia.tdiv ib)

/-- The overflow error message of the non-wrapped form of an arithmetic
capability. -/
def overflowMsg : ArithKind → String
  | .add => "Integer addition overflowed"
  | .sub => "Integer subtraction underflowed"
  | .mul => "Integer multiplication overflowed"
  | .div => "Integer division overflowed"

/-- Modelled from the spec: the integer step of an arithmetic opcode
(§4.1 failure policy): division by zero fails for both forms; the
non-wrapped form fails when the exact result is out of the operand
width's range; the wrapped form always yields the exact result reduced
modulo `2 ^ bitwidth`. Returns the raw bit pattern of the written
integer. -/
def evalIntOp (k : ArithKind) (wrapped : Bool) (signed : Bool) (w : IntWidth)
    (va vb : Nat) : Except String Nat :=
  match intResult k signed w va vb with
  | none => .error "Division by zero"
  | some r =>
      if wrapped then .ok (wrap w r)
      else if inRange signed w r then .ok (wrap w r)
      else .error (overflowMsg k)

/-- Modelled from the spec: the field step of an arithmetic capability —
field arithmetic is an external primitive (§1); the model realises it as
arithmetic modulo the field size, with division by zero failing and
field division multiplying by the modular inverse. -/
def evalFieldOp (k : ArithKind) (va vb : Nat) : Except String Nat :=
  match k with
  | .add => .ok ((va + vb) % fieldModulus)
  | .sub => .ok ((va + (fieldModulus - vb % fieldModulus)) % fieldModulus)
  | .mul => .ok (va * vb % fieldModulus)
  | .div =>
      if vb % fieldModulus = 0 then .error "Division by zero"
      else .ok (va * (vb ^ (fieldModulus - 2) % fieldModulus) % fieldModulus)

/-- Modelled from the spec: the combined visibility of an operation that
derives a value from two tagged inputs — public only when both inputs
are public. -/
def Mode.combine : Mode → Mode → Mode
  | .Public, .Public => .Public
  | _, _ => .Private

/-- Modelled from the spec: applying an arithmetic capability to two
literals (§4.1): same-width same-signedness integers follow the
integer overflow policy, fields follow field arithmetic; the wrapped
forms exist only for integers; anything else is a type mismatch and a
hard failure. -/
def evalArith (k : ArithKind) (wrapped : Bool) (a b : Literal) :
    Except String Literal :=
  match a.value, b.value with
  | .intLit sa wa va, .intLit sb wb vb =>
      if sa = sb ∧ wa = wb then
        (evalIntOp k wrapped sa wa va vb).map
          (fun v => ⟨.intLit sa wa v, a.mode.combine b.mode⟩)
      else .error "Operand types are incompatible"
  | .field va, .field vb =>
      if wrapped then .error "Operand types are incompatible"
      else
        (evalFieldOp k va vb).map
          (fun v => ⟨.field v, a.mode.combine b.mode⟩)
  | _, _ => .error "Operand types are incompatible"

/-- Modelled from the spec: the evaluation of one binary arithmetic
operation (§4.1): resolve both operands against the register file (a
failure if either register is undefined or holds a composite), apply
the capability, and assign the resulting literal to the destination
register; no other register is touched. -/
def BinaryOperation.evaluate (k : ArithKind) (wrapped : Bool)
    (op : BinaryOperation) (st : Stack) : Except String Stack :=
  match resolveOperand st op.first, resolveOperand st op.second with
  | some (.literal a), some (.literal b) =>
      (evalArith k wrapped a b).map
        (fun out => st.store op.destination (Value.literal out))
  | some _, some _ => .error "Operand types are incompatible"
  | _, _ => .error "Operand register is not defined"

/-- `Instruction::evaluate`: dispatch to the one active variant's
operation (the `instruction!` match of `function/instruction/mod.rs`);
there is no default case. -/
def Instruction.evaluate : Instruction → Stack → Except String Stack
  | .Add op, st => op.evaluate .add false st
  | .AddWrapped op, st => op.evaluate .add true st
  | .Div op, st => op.evaluate .div false st
  | .DivWrapped op, st => op.evaluate .div true st
  | .Mul op, st => op.evaluate .mul false st
  | .MulWrapped op, st => op.evaluate .mul true st
  | .Sub op, st => op.evaluate .sub false st
  | .SubWrapped op, st => op.evaluate .sub true st

/-! ## The Function aggregate (`function/mod.rs`) -/

/-- Modelled from the spec: an input statement (the source `input.rs` is
not in the excerpt): a declared input register together with its value
type, here abstracted as an identifier. Only its identity matters to
the builder. -/
structure FuncInput where
  register : Register
  valueType : Identifier
deriving DecidableEq, Repr

/-- Modelled from the spec: an output statement (the source `output.rs`
is not in the excerpt): a declared output operand together with its
value type, here abstracted as an identifier. Only its identity matters
to the builder. -/
structure FuncOutput where
  register : Register
  valueType : Identifier
deriving DecidableEq, Repr

/-- Modelled from the spec: the network-defined maximum cardinalities of
a function's three collections (`N::MAX_FUNCTION_INPUTS`,
`N::MAX_FUNCTION_INSTRUCTIONS`, `N::MAX_FUNCTION_OUTPUTS`); the
constants live in the network trait, outside the excerpt, so the model
carries them as parameters. -/
structure NetworkParams where
  MAX_FUNCTION_INPUTS : Nat
  MAX_FUNCTION_INSTRUCTIONS : Nat
  MAX_FUNCTION_OUTPUTS : Nat
deriving DecidableEq, Repr

/-- Insertion into an `IndexSet`: appends the element unless it is
already present, in which case the set is returned unchanged. -/
def indexSetInsert [DecidableEq α] (l : List α) (a : α) : List α :=
  if l.contains a then l else l ++ [a]

/-- The `Function` of `function/mod.rs`: a name, the input statements
(an insertion-ordered duplicate-free set), the instructions in order of
execution, and the output statements (an insertion-ordered
duplicate-free set). -/
structure Func where
  name : Identifier
  inputs : List FuncInput
  instructions : List Instruction
  outputs : List FuncOutput
deriving DecidableEq, Repr

/-- `Function::new`: a function with the given name and empty
collections. -/
def Func.new (name : Identifier) : Func :=
  ⟨name, [], [], []⟩

/-- `Function::add_input`: ensure no instructions and no outputs are in
memory, ensure `inputs.len() <= N::MAX_FUNCTION_INPUTS`, ensure the
statement is not a duplicate, then insert it. The guards appear in the
source's order. -/
def Func.add_input (N : NetworkParams) (f : Func) (input : FuncInput) :
    Except String Func :=
  if !f.instructions.isEmpty then
    .error "Cannot add inputs after instructions have been added"
  else if !f.outputs.isEmpty then
    .error "Cannot add inputs after outputs have been added"
  else if !(f.inputs.length ≤ N.MAX_FUNCTION_INPUTS) then
    .error "Cannot add more than MAX_FUNCTION_INPUTS inputs"
  else if f.inputs.contains input then
    .error "Cannot add duplicate input statement"
  else
    .ok { f with inputs := indexSetInsert f.inputs input }

/-- `Function::add_instruction`: ensure input statements are in memory,
ensure `instructions.len() <= N::MAX_FUNCTION_INSTRUCTIONS`, then push
the instruction. (The source has no guard on the outputs here.) -/
def Func.add_instruction (N : NetworkParams) (f : Func)
    (instruction : Instruction) : Except String Func :=
  if f.inputs.isEmpty then
    .error "Cannot add instructions before inputs have been added"
  else if !(f.instructions.length ≤ N.MAX_FUNCTION_INSTRUCTIONS) then
    .error "Cannot add more than MAX_FUNCTION_INSTRUCTIONS instructions"
  else
    .ok { f with instructions := f.instructions ++ [instruction] }

/-- `Function::add_output`: ensure input statements and instructions are
in memory, ensure `outputs.len() <= N::MAX_FUNCTION_OUTPUTS`, then
insert the statement into the `IndexSet` (which silently drops a
duplicate). -/
def Func.add_output (N : NetworkParams) (f : Func) (output : FuncOutput) :
    Except String Func :=
  if f.inputs.isEmpty then
    .error "Cannot add outputs before inputs have been added"
  else if f.instructions.isEmpty then
    .error "Cannot add outputs before instructions have been added"
  else if !(f.outputs.length ≤ N.MAX_FUNCTION_OUTPUTS) then
    .error "Cannot add more than MAX_FUNCTION_OUTPUTS outputs"
  else
    .ok { f with outputs := indexSetInsert f.outputs output }

/-- The instruction loop of `Function::evaluate`
(`try_for_each(|instruction| instruction.evaluate(stack))`): run each
instruction in order against the register file, stopping at the first
failure; the returned register file is the one at the point of the
stop, with every earlier write retained. -/
def evalInstructions : List Instruction → Stack → Stack × Option String
  | [], st => (st, none)
  | i :: rest, st =>
      match i.evaluate st with
      | .ok st₂ => evalInstructions rest st₂
      | .error e => (st, some e)

/-- `Function::evaluate`: ensure input statements and instructions are
in memory, then evaluate the instructions in order. The result pairs
the final register file with the first failure, if any. -/
def Func.evaluate (f : Func) (st : Stack) : Stack × Option String :=
  if f.inputs.isEmpty then
    (st, some "Cannot evaluate a function without input statements")
  else if f.instructions.isEmpty then
    (st, some "Cannot evaluate a function without instructions")
  else evalInstructions f.instructions st

/-! ## Binary codec -/

/-- The `len` little-endian bytes of `v` (the fixed-width integer
serialization used throughout the codec). -/
def natToBytesLE : (len : Nat) → Nat → List Nat
  | 0, _ => []
  | len + 1, v => v % 256 :: natToBytesLE len (v / 256)

/-- Read a `len`-byte little-endian integer, returning the value and
the remaining bytes; fails on truncation. -/
def readNatLE : (len : Nat) → List Nat → Option (Nat × List Nat)
  | 0, bs => some (0, bs)
  | _ + 1, [] => none
  | len + 1, b :: bs =>
      (readNatLE len bs).map (fun p => (b + 256 * p.1, p.2))

/-- Take exactly `n` bytes from the stream; fails on truncation. -/
def readChunk : (n : Nat) → List Nat → Option (List Nat × List Nat)
  | 0, bs => some ([], bs)
  | _ + 1, [] => none
  | n + 1, b :: bs =>
      (readChunk n bs).map (fun p => (b :: p.1, p.2))

/-- Modelled from the spec: the byte form of an identifier — a one-byte
length followed by the name's bytes. -/
def writeIdentifier (i : Identifier) : List Nat :=
  i.name.length :: i.name

/-- Read an identifier: a one-byte length then that many bytes. -/
def readIdentifier : List Nat → Option (Identifier × List Nat)
  | [] => none
  | n :: bs => (readChunk n bs).map (fun p => (⟨p.1⟩, p.2))

/-- Write `count` identifiers back to back. -/
def writeIdList (l : List Identifier) : List Nat :=
  (l.map writeIdentifier).flatten

/-- Read exactly `n` identifiers. -/
def readIdList : (n : Nat) → List Nat → Option (List Identifier × List Nat)
  | 0, bs => some ([], bs)
  | n + 1, bs =>
      match readIdentifier bs with
      | none => none
      | some (i, rest) =>
          (readIdList n rest).map (fun p => (i :: p.1, p.2))

/-- Modelled from the spec: the byte form of a register address — a
variant byte (0 for a plain locator, 1 for a member access), the 64-bit
little-endian locator, and for a member access a one-byte path length
followed by the path's identifiers. -/
def writeRegister : Register → List Nat
  | .locator n => 0 :: natToBytesLE 8 n
  | .member n path => 1 :: natToBytesLE 8 n ++ path.length :: writeIdList path

/-- Read a register address. -/
def readRegister : List Nat → Option (Register × List Nat)
  | 0 :: bs => (readNatLE 8 bs).map (fun p => (.locator p.1, p.2))
  | 1 :: bs =>
      match readNatLE 8 bs with
      | none => none
      | some (n, rest) =>
          match rest with
          | [] => none
          | count :: rest₂ =>
              (readIdList count rest₂).map (fun p => (.member n p.1, p.2))
  | _ => none

/-- The byte of a visibility mode: 0 public, 1 private. -/
def Mode.toByte : Mode → Nat
  | .Public => 0
  | .Private => 1

/-- The kind tag of a literal payload in the byte codec. -/
def LiteralValue.tag : LiteralValue → Nat
  | .address _ => 0
  | .boolean _ => 1
  | .field _ => 2
  | .group _ => 3
  | .intLit true .w8 _ => 4
  | .intLit true .w16 _ => 5
  | .intLit true .w32 _ => 6
  | .intLit true .w64 _ => 7
  | .intLit true .w128 _ => 8
  | .intLit false .w8 _ => 9
  | .intLit false .w16 _ => 10
  | .intLit false .w32 _ => 11
  | .intLit false .w64 _ => 12
  | .intLit false .w128 _ => 13
  | .scalar _ => 14
  | .str _ => 15

/-- Modelled from the spec: the byte form of a literal — a kind tag, a
mode byte, then the payload: booleans one byte, field/group//address and
scalars 32 little-endian bytes, an integer its width in bytes, and a
string a two-byte length followed by its bytes. -/
def writeLiteral (l : Literal) : List Nat :=
  l.value.tag :: l.mode.toByte ::
    (match l.value with
     | .boolean b => [cond b 1 0]
     | .field v => natToBytesLE 32 v
     | .group v => natToBytesLE 32 v
     | .address v => natToBytesLE 32 v
     | .scalar v => natToBytesLE 32 v
     | .intLit _ w v => natToBytesLE (w.bits / 8) v
     | .str s => natToBytesLE 2 s.length ++ s)

/-- Read a mode byte. -/
def readMode : List Nat → Option (Mode × List Nat)
  | 0 :: bs => some (.Public, bs)
  | 1 :: bs => some (.Private, bs)
  | _ => none

/-- Read an integer literal payload of the given signedness and width. -/
def readIntPayload (signed : Bool) (w : IntWidth) (m : Mode) (bs : List Nat) :
    Option (Literal × List Nat) :=
  (readNatLE (w.bits / 8) bs).map (fun p => (⟨.intLit signed w p.1, m⟩, p.2))

/-- Read a literal: kind tag, mode byte, payload. -/
def readLiteral (bs : List Nat) : Option (Literal × List Nat) :=
  match bs with
  | [] => none
  | tag :: bs₁ =>
      match readMode bs₁ with
      | none => none
      | some (m, bs₂) =>
          match tag with
          | 0 => (readNatLE 32 bs₂).map (fun p => (⟨.address p.1, m⟩, p.2))
          | 1 =>
              match bs₂ with
              | 0 :: rest => some (⟨.boolean false, m⟩, rest)
              | 1 :: rest => some (⟨.boolean true, m⟩, rest)
              | _ => none
          | 2 => (readNatLE 32 bs₂).map (fun p => (⟨.field p.1, m⟩, p.2))
          | 3 => (readNatLE 32 bs₂).map (fun p => (⟨.group p.1, m⟩, p.2))
          | 4 => readIntPayload true .w8 m bs₂
          | 5 => readIntPayload true .w16 m bs₂
          | 6 => readIntPayload true .w32 m bs₂
          | 7 => readIntPayload true .w64 m bs₂
          | 8 => readIntPayload true .w128 m bs₂
          | 9 => readIntPayload false .w8 m bs₂
          | 10 => readIntPayload false .w16 m bs₂
          | 11 => readIntPayload false .w32 m bs₂
          | 12 => readIntPayload false .w64 m bs₂
          | 13 => readIntPayload false .w128 m bs₂
          | 14 => (readNatLE 32 bs₂).map (fun p => (⟨.scalar p.1, m⟩, p.2))
          | 15 =>
              match readNatLE 2 bs₂ with
              | none => none
              | some (n, rest) =>
                  (readChunk n rest).map (fun p => (⟨.str p.1, m⟩, p.2))
          | _ => none

/-- Modelled from the spec: the byte form of an operand — a variant
byte (0 literal, 1 register) followed by the payload. -/
def writeOperand : Operand → List Nat
  | .literal l => 0 :: writeLiteral l
  | .register r => 1 :: writeRegister r

/-- Read an operand. -/
def readOperand : List Nat → Option (Operand × List Nat)
  | 0 :: bs => (readLiteral bs).map (fun p => (.literal p.1, p.2))
  | 1 :: bs => (readRegister bs).map (fun p => (.register p.1, p.2))
  | _ => none

/-- Modelled from the spec: the byte form of a binary operation's
payload (§4.5): the operand list then the destination, in declaration
order. -/
def writeBinaryOperation (op : BinaryOperation) : List Nat :=
  writeOperand op.first ++ writeOperand op.second ++ writeRegister op.destination

/-- Read a binary operation payload. -/
def readBinaryOperation (bs : List Nat) : Option (BinaryOperation × List Nat) :=
  match readOperand bs with
  | none => none
  | some (first, bs₁) =>
      match readOperand bs₁ with
      | none => none
      | some (second, bs₂) =>
          (readRegister bs₂).map (fun p => (⟨first, second, p.1⟩, p.2))

/-- The binary discriminant of an instruction: its position in the
source's `INSTRUCTION_VARIANTS` list (`ToBytes::write_le`,
`function/instruction/mod.rs`). -/
def Instruction.variant : Instruction → Nat
  | .Add _ => 0
  | .AddWrapped _ => 1
  | .Div _ => 2
  | .DivWrapped _ => 3
  | .Mul _ => 4
  | .MulWrapped _ => 5
  | .Sub _ => 6
  | .SubWrapped _ => 7

/-- `Instruction::write_le`: the 16-bit little-endian variant
discriminant followed by the active operation's own byte encoding. -/
def Instruction.write_le (i : Instruction) : List Nat :=
  natToBytesLE 2 i.variant ++ writeBinaryOperation i.operation

/-- The three observable outcomes of `Instruction::read_le` in the
source: a decoded instruction with the remaining bytes, an `Err`
return, or a Rust panic (an out-of-bounds slice index aborts the call
instead of returning). -/
inductive ReadResult (α : Type) where
  | ok (a : α) (rest : List Nat)
  | fail
  | panicked
deriving DecidableEq, Repr

/-- Build the instruction of the given in-range variant index from its
decoded operation payload. -/
def instructionOfVariant : Nat → BinaryOperation → Instruction
  | 0, op => .Add op
  | 1, op => .AddWrapped op
  | 2, op => .Div op
  | 3, op => .DivWrapped op
  | 4, op => .Mul op
  | 5, op => .MulWrapped op
  | 6, op => .Sub op
  | _, op => .SubWrapped op

/-- `Instruction::read_le` (`FromBytes`, `function/instruction/mod.rs`):
read the 16-bit little-endian variant index (a truncated stream is an
`Err`); the source then evaluates `INSTRUCTION_VARIANTS[variant]`,
which for `variant >= 8` indexes past the end of the variant slice and
panics — the `Err(error(...))` fallback below the variant cases is
unreachable; for an in-range variant the matching case reads the
operation payload (a malformed payload is an `Err`) and returns the
instruction. -/
def Instruction.read_le (bs : List Nat) : ReadResult Instruction :=
  match readNatLE 2 bs with
  | none => .fail
  | some (variant, rest) =>
      if variant < 8 then
        match readBinaryOperation rest with
        | none => .fail
        | some (op, rest₂) => .ok (instructionOfVariant variant op) rest₂
      else .panicked

/-! ## The 1024-bit Pedersen hash instruction (`hash/ped1024.rs`) -/

/-- Modelled from the spec: the payload of a unary operation — one
operand and one destination register (§3, "Operation"); the bytecode
`Ped1024` struct wraps a `UnaryOperation`. -/
structure UnaryOperation where
  first : Operand
  destination : Register
deriving DecidableEq, Repr

/-- The `len` little-endian bits of `v` (the canonical bit encoding of
a numeric payload). -/
def natBitsLE : (len : Nat) → Nat → List Bool
  | 0, _ => []
  | len + 1, v => (v % 2 = 1) :: natBitsLE len (v / 2)

/-- Modelled from the spec: the canonical little-endian bit encoding of
a literal payload (§4.2 obligation (1)): a boolean is one bit, a field
or group element or address is its 253-bit base-field representation, a
scalar its 251-bit representation, an integer its width in bits, and a
string eight bits per byte. -/
def LiteralValue.toBits : LiteralValue → List Bool
  | .boolean b => [b]
  | .field v => natBitsLE 253 v
  | .group v => natBitsLE 253 v
  | .address v => natBitsLE 253 v
  | .scalar v => natBitsLE 251 v
  | .intLit _ w v => natBitsLE w.bits v
  | .str s => (s.map (natBitsLE 8)).flatten

/-- Modelled from the spec: the canonical bit encoding of a value: a
literal's payload bits, or the concatenation of a composite's member
payload bits in member order. -/
def Value.toBits : Value → List Bool
  | .literal l => l.value.toBits
  | .composite _ members => (members.map (fun l => l.value.toBits)).flatten

/-- Modelled from the spec: the visibility of a whole value — public
only when every constituent literal is public (a private input, or any
private member of a composite, makes it private). -/
def Value.mode : Value → Mode
  | .literal l => l.mode
  | .composite _ members =>
      if members.all (fun l => l.mode = Mode.Public) then .Public else .Private

/-- Modelled from the spec: the claim text's own reading of "the
least-restrictive (most public) visibility among the input's
constituent literals": public as soon as any constituent literal is
public. Stated here only to be compared with the behaviour of the
code's tests. -/
def Value.leastRestrictiveMode : Value → Mode
  | .literal l => l.mode
  | .composite _ members =>
      if members.any (fun l => l.mode = Mode.Public) then .Public else .Private

/-- Modelled from the spec: the external Pedersen hash primitive over
bit sequences (§4.2 treats the hash itself as an external cryptographic
primitive, out of scope). A Pedersen hash adds one fixed base per set
bit, so trailing clear bits do not change the digest; the model
therefore hashes the bit sequence with trailing `false`s dropped
through a value table pinned at the repository's tested input — the
encoding of the boolean `true` (equally of `1field`, `1u8`, …) — and
maps every input outside the table to 0, an unspecified stand-in that
no claim depends on. -/
def pedersenHash1024 (bits : List Bool) : Nat :=
  if (bits.reverse.dropWhile (fun b => b = false)).reverse = [true] then
    6122249396247477588925765696834100286827340493907798245233656838221917119242
  else 0

/-- `Ped1024::evaluate` (modelled from the spec, §4.2: the
`impl_hash_instruction!` body is not in the excerpt): resolve the one
operand, take the canonical bit encoding of its value, fail with the
capacity message when it exceeds 1024 bits, otherwise write a single
field-element literal holding the digest to the destination register,
tagged with the input's combined visibility. -/
def Ped1024.evaluate (op : UnaryOperation) (st : Stack) : Except String Stack :=
  match resolveOperand st op.first with
  | none => .error "Operand register is not defined"
  | some v =>
      if v.toBits.length ≤ 1024 then
        .ok (st.store op.destination
          (Value.literal ⟨.field (pedersenHash1024 v.toBits), v.mode⟩))
      else .error "The Pedersen hash input cannot exceed 1024 bits."

/-! ## Text form: sanitizer, grammar and printing

Modelled from the spec (§4.4): the per-opcode sub-parsers and the
operand/register/literal token grammars live in source files outside
the excerpt; the excerpt contributes the dispatch skeleton of
`Instruction::parse` (sanitize, try each variant's parser in the fixed
variant order, then the terminating semicolon) and of the `Display`
instance. The grammar is `<opcode> <operand> <operand> into
<destination>;` with single-space separators; literal operand tokens
cover the boolean, integer and field forms. -/

/-- Whether a character is incidental whitespace for the sanitizer. -/
def isWSChar (c : Char) : Bool :=
  c = ' ' || c = '\n' || c = '\t' || c = '\r'

/-- One fuelled pass of the sanitizer: drop leading whitespace, then a
leading `//` line comment, and repeat. -/
def sanitizeFuel : Nat → List Char → List Char
  | 0, s => s
  | fuel + 1, s =>
      match s.dropWhile isWSChar with
      | '/' :: '/' :: rest =>
          sanitizeFuel fuel (rest.dropWhile (fun c => !(c = '\n')))
      | s₁ => s₁

/-- `Sanitizer::parse`, modelled from the spec: consume leading
whitespace and comments before the opcode token. -/
def sanitize (s : List Char) : List Char :=
  sanitizeFuel s.length s

/-- Parse a fixed token, returning the remainder. -/
def ptag (t s : List Char) : Option (List Char) :=
  if t.isPrefixOf s then some (s.drop t.length) else none

/-- The ten decimal digit characters. -/
def digitChars : List Char :=
  ['0', '1', '2', '3', '4', '5', '6', '7', '8', '9']

/-- Whether a character is a decimal digit. -/
def isDigitCh (c : Char) : Bool :=
  digitChars.contains c

/-- The numeric value of a digit character. -/
def digitVal (c : Char) : Nat :=
  match c with
  | '0' => 0
  | '1' => 1
  | '2' => 2
  | '3' => 3
  | '4' => 4
  | '5' => 5
  | '6' => 6
  | '7' => 7
  | '8' => 8
  | '9' => 9
  | _ => 0

/-- The digit character of a value below ten. -/
def digitChar (d : Nat) : Char :=
  match d with
  | 0 => '0'
  | 1 => '1'
  | 2 => '2'
  | 3 => '3'
  | 4 => '4'
  | 5 => '5'
  | 6 => '6'
  | 7 => '7'
  | 8 => '8'
  | 9 => '9'
  | _ => '0'

/-- Whether a digit run is the canonical decimal numeral of its value:
nonempty, and no leading zero except for the numeral `0` itself. -/
def canonicalDigits : List Char → Bool
  | [] => false
  | c :: rest => !(c = '0') || rest.isEmpty

/-- The value of a big-endian digit run. -/
def digitsToNat (ds : List Char) : Nat :=
  Nat.ofDigits 10 ((ds.map digitVal).reverse)

/-- The canonical decimal numeral of a natural number. -/
def natToDigits (n : Nat) : List Char :=
  if n = 0 then ['0'] else ((Nat.digits 10 n).map digitChar).reverse

/-- Parse a canonical decimal numeral (maximal digit run, no leading
zero). -/
def pnum (s : List Char) : Option (Nat × List Char) :=
  match s.takeWhile isDigitCh with
  | [] => none
  | ds =>
      if canonicalDigits ds then some (digitsToNat ds, s.dropWhile isDigitCh)
      else none

/-- Whether a character may appear in an identifier. -/
def isIdCh (c : Char) : Bool :=
  idByteOk c.toNat

/-- Parse an identifier: the maximal run of identifier characters,
required to be well formed. -/
def pident (s : List Char) : Option (Identifier × List Char) :=
  match s.takeWhile isIdCh with
  | [] => none
  | cs =>
      if Identifier.wf ⟨cs.map Char.toNat⟩ then
        some (⟨cs.map Char.toNat⟩, s.dropWhile isIdCh)
      else none

/-- Print an identifier. -/
def printIdent (i : Identifier) : List Char :=
  i.name.map Char.ofNat

/-- Parse a member path: as many `.identifier` segments as follow. -/
def ppathFuel : Nat → List Char → List Identifier × List Char
  | 0, s => ([], s)
  | fuel + 1, s =>
      match s with
      | '.' :: s₁ =>
          match pident s₁ with
          | none => ([], s)
          | some (i, s₂) =>
              match ppathFuel fuel s₂ with
              | (is, s₃) => (i :: is, s₃)
      | _ => ([], s)

/-- Print a member path. -/
def printPath (path : List Identifier) : List Char :=
  (path.map (fun i => '.' :: printIdent i)).flatten

/-- Parse a register: `r`, a canonical locator numeral below `2 ^ 64`,
and an optional member path. -/
def pregister (s : List Char) : Option (Register × List Char) :=
  match s with
  | 'r' :: s₁ =>
      match pnum s₁ with
      | none => none
      | some (n, s₂) =>
          if n < 2 ^ 64 then
            match ppathFuel s₂.length s₂ with
            | (path, s₃) =>
                if path.isEmpty then some (.locator n, s₃)
                else some (.member n path, s₃)
          else none
  | _ => none

/-- Print a register. -/
def printRegister : Register → List Char
  | .locator n => 'r' :: natToDigits n
  | .member n path => 'r' :: natToDigits n ++ printPath path

/-- The opcode suffix token of an integer literal kind. -/
def intSuffix (signed : Bool) (w : IntWidth) : List Char :=
  (cond signed 'i' 'u') ::
    (match w with
     | .w8 => ['8']
     | .w16 => ['1', '6']
     | .w32 => ['3', '2']
     | .w64 => ['6', '4']
     | .w128 => ['1', '2', '8'])

/-- The integer literal kinds in the order their suffix tokens are
tried. -/
def allIntKinds : List (Bool × IntWidth) :=
  [(true, .w8), (true, .w16), (true, .w32), (true, .w64), (true, .w128),
   (false, .w8), (false, .w16), (false, .w32), (false, .w64), (false, .w128)]

/-- Try the suffix token of each listed integer kind in turn. -/
def ptryKinds : List (Bool × IntWidth) → List Char →
    Option ((Bool × IntWidth) × List Char)
  | [], _ => none
  | sw :: more, s =>
      match ptag (intSuffix sw.1 sw.2) s with
      | some rest => some (sw, rest)
      | none => ptryKinds more s

/-- Parse an integer suffix token. -/
def psuffix (s : List Char) : Option ((Bool × IntWidth) × List Char) :=
  ptryKinds allIntKinds s

/-- Parse a nonnegative numeric literal token: a canonical numeral
followed by `field` or an integer suffix, with the value required to be
in the kind's range. Parsed literal tokens carry public visibility. -/
def pnumericTok (s : List Char) : Option (Literal × List Char) :=
  match pnum s with
  | none => none
  | some (n, s₁) =>
      match ptag ['f', 'i', 'e', 'l', 'd'] s₁ with
      | some rest => if n < fieldModulus then some (⟨.field n, .Public⟩, rest) else none
      | none =>
          match psuffix s₁ with
          | none => none
          | some p =>
              if n < 2 ^ (p.1.2.bits - cond p.1.1 1 0) then
                some (⟨.intLit p.1.1 p.1.2 n, .Public⟩, p.2)
              else none

/-- Parse a literal token: a boolean, a negative integer (a minus sign,
a canonical nonzero numeral of magnitude at most `2 ^ (bits - 1)`, and
a signed suffix), or a nonnegative numeric token. -/
def pliteralTok (s : List Char) : Option (Literal × List Char) :=
  match ptag ['t', 'r', 'u', 'e'] s with
  | some rest => some (⟨.boolean true, .Public⟩, rest)
  | none =>
  match ptag ['f', 'a', 'l', 's', 'e'] s with
  | some rest => some (⟨.boolean false, .Public⟩, rest)
  | none =>
  match ptag ['-'] s with
  | some s₁ =>
      (match pnum s₁ with
       | none => none
       | some (n, s₂) =>
           match psuffix s₂ with
           | none => none
           | some p =>
               if p.1.1 then
                 if 0 < n ∧ n ≤ 2 ^ (p.1.2.bits - 1) then
                   some (⟨.intLit true p.1.2 (2 ^ p.1.2.bits - n), .Public⟩, p.2)
                 else none
               else none)
  | none => pnumericTok s

/-- Print a literal token. The kinds outside the modelled grammar print
as empty tokens; no parsed instruction contains them. -/
def printLiteralTok (l : Literal) : List Char :=
  match l.value with
  | .boolean true => ['t', 'r', 'u', 'e']
  | .boolean false => ['f', 'a', 'l', 's', 'e']
  | .field v => natToDigits v ++ ['f', 'i', 'e', 'l', 'd']
  | .intLit signed w v =>
      if signed ∧ 2 ^ (w.bits - 1) ≤ v ∧ 0 < v then
        '-' :: (natToDigits (2 ^ w.bits - v) ++ intSuffix signed w)
      else natToDigits v ++ intSuffix signed w
  | _ => []

/-- Parse an operand: a literal token, else a register. -/
def poperand (s : List Char) : Option (Operand × List Char) :=
  match pliteralTok s with
  | some (l, rest) => some (.literal l, rest)
  | none =>
      match pregister s with
      | some (r, rest) => some (.register r, rest)
      | none => none

/-- Print an operand. -/
def printOperand : Operand → List Char
  | .literal l => printLiteralTok l
  | .register r => printRegister r

/-- Parse a binary operation's body: two space-separated operands, the
`into` keyword, and the destination register. -/
def pbinaryBody (s : List Char) : Option (BinaryOperation × List Char) :=
  match poperand s with
  | none => none
  | some (first, s₁) =>
      match ptag [' '] s₁ with
      | none => none
      | some s₂ =>
          match poperand s₂ with
          | none => none
          | some (second, s₃) =>
              match ptag [' ', 'i', 'n', 't', 'o', ' '] s₃ with
              | none => none
              | some s₄ =>
                  match pregister s₄ with
                  | none => none
                  | some (dst, s₅) => some (⟨first, second, dst⟩, s₅)

/-- The textual opcode tokens, one per variant, in the source's variant
order. -/
def opcodeToks : List (List Char) :=
  [['a', 'd', 'd'],
   ['a', 'd', 'd', '.', 'w'],
   ['d', 'i', 'v'],
   ['d', 'i', 'v', '.', 'w'],
   ['m', 'u', 'l'],
   ['m', 'u', 'l', '.', 'w'],
   ['s', 'u', 'b'],
   ['s', 'u', 'b', '.', 'w']]

/-- The textual opcode token of an instruction's variant. -/
def opcodeTok (i : Instruction) : List Char :=
  opcodeToks.getD i.variant []

/-- One variant's sub-parser: its opcode token, a space, and the
operation body. -/
def pvariant (tok : List Char) (mk : BinaryOperation → Instruction)
    (s : List Char) : Option (Instruction × List Char) :=
  match ptag tok s with
  | none => none
  | some s₁ =>
      match ptag [' '] s₁ with
      | none => none
      | some s₂ =>
          match pbinaryBody s₂ with
          | none => none
          | some (op, rest) => some (mk op, rest)

/-- `Instruction::parse`: consume whitespace and comments, try each
variant's sub-parser in the source's fixed variant order committing to
the first success, then require the terminating semicolon. -/
def Instruction.parse (s : List Char) : Option (Instruction × List Char) :=
  let s₀ := sanitize s
  let step :=
    match pvariant (opcodeToks.getD 0 []) .Add s₀ with
    | some r => some r
    | none =>
    match pvariant (opcodeToks.getD 1 []) .AddWrapped s₀ with
    | some r => some r
    | none =>
    match pvariant (opcodeToks.getD 2 []) .Div s₀ with
    | some r => some r
    | none =>
    match pvariant (opcodeToks.getD 3 []) .DivWrapped s₀ with
    | some r => some r
    | none =>
    match pvariant (opcodeToks.getD 4 []) .Mul s₀ with
    | some r => some r
    | none =>
    match pvariant (opcodeToks.getD 5 []) .MulWrapped s₀ with
    | some r => some r
    | none =>
    match pvariant (opcodeToks.getD 6 []) .Sub s₀ with
    | some r => some r
    | none =>
    match pvariant (opcodeToks.getD 7 []) .SubWrapped s₀ with
    | some r => some r
    | none => none
  match step with
  | none => none
  | some (i, s₁) =>
      match ptag [';'] s₁ with
      | none => none
      | some rest => some (i, rest)

/-- Print a binary operation's body: the space-separated operands, the
`into` keyword, and the destination. -/
def printBinBody (op : BinaryOperation) : List Char :=
  printOperand op.first ++ ' ' :: printOperand op.second
    ++ [' ', 'i', 'n', 't', 'o', ' '] ++ printRegister op.destination

/-- The `Display` instance: the opcode token, the operation body, and
the terminating semicolon. -/
def Instruction.print (i : Instruction) : List Char :=
  opcodeTok i ++ ' ' :: printBinBody i.operation ++ [';']

/-! ## Concrete values used by the closed theorems -/

/-- A small network parameter choice for concrete evaluation. -/
def exParams : NetworkParams := ⟨2, 2, 2⟩

/-- The function name `f`. -/
def exName : Identifier := ⟨[102]⟩

/-- The value type token `u8`. -/
def exType : Identifier := ⟨[117, 56]⟩

/-- An input statement on register `k`. -/
def exIn (k : Nat) : FuncInput := ⟨.locator k, exType⟩

/-- An output statement on register `k`. -/
def exOut (k : Nat) : FuncOutput := ⟨.locator k, exType⟩

/-- A `u8` literal. -/
def u8lit (n : Nat) (m : Mode) : Literal := ⟨.intLit false .w8 n, m⟩

/-- `add 1u8 2u8 into r2;`. -/
def exAdd : Instruction :=
  .Add ⟨.literal (u8lit 1 .Public), .literal (u8lit 2 .Public), .locator 2⟩

/-- `div 1u8 0u8 into r3;`, which halts on evaluation. -/
def exDivZero : Instruction :=
  .Div ⟨.literal (u8lit 1 .Public), .literal (u8lit 0 .Public), .locator 3⟩

/-- A fully built function: one input, one instruction, one output. -/
def exBuilt : Func := ⟨exName, [exIn 0], [exAdd], [exOut 2]⟩

/-- A composite value with one public and one private member (the
`test_composite` input of `ped1024.rs`). -/
def exComposite : Value :=
  .composite ⟨[109]⟩ [⟨.boolean true, .Public⟩, ⟨.boolean false, .Private⟩]

/-- `hash.ped1024 r0 into r1;`'s operation payload. -/
def exHashOp : UnaryOperation := ⟨.register (.locator 0), .locator 1⟩

/-- A register file holding the composite in `r0`. -/
def exStack : Stack := [(.locator 0, exComposite)]

/-- The 129-byte string literal (1032 bits) of the capacity-halt test
of `ped1024.rs`. -/
def exStr129 : Literal := ⟨.str (List.replicate 129 97), .Private⟩

/-- A function whose second instruction halts: add, divide by zero,
add. -/
def exSeq : Func := ⟨exName, [exIn 0], [exAdd, exDivZero, exAdd], []⟩

/-- The non-wrapped instruction variant of an arithmetic capability. -/
def nonWrappedInstr : ArithKind → BinaryOperation → Instruction
  | .add, op => .Add op
  | .sub, op => .Sub op
  | .mul, op => .Mul op
  | .div, op => .Div op

/-- The wrapped instruction variant of an arithmetic capability. -/
def wrappedInstr : ArithKind → BinaryOperation → Instruction
  | .add, op => .AddWrapped op
  | .sub, op => .SubWrapped op
  | .mul, op => .MulWrapped op
  | .div, op => .DivWrapped op

/-- A binary operation over two embedded same-width integer literal
operands. -/
def mkIntBinary (s : Bool) (w : IntWidth) (va vb : Nat) (ma mb : Mode)
    (dst : Register) : BinaryOperation :=
  ⟨.literal ⟨.intLit s w va, ma⟩, .literal ⟨.intLit s w vb, mb⟩, dst⟩

/-- The constituent literals of a value. -/
def Value.constituents : Value → List Literal
  | .literal l => [l]
  | .composite _ members => members

/-! ## Codec round-trip lemmas -/

theorem readNatLE_pfx (len : Nat) :
    ∀ v rest, v < 256 ^ len →
      readNatLE len (natToBytesLE len v ++ rest) = some (v, rest) := by
  induction len with
  | zero =>
      intro v rest h
      simp only [Nat.pow_zero, Nat.lt_one_iff] at h
      subst h
      rfl
  | succ n ih =>
      intro v rest h
      have hdiv : v / 256 < 256 ^ n := by
        rw [Nat.div_lt_iff_lt_mul (by norm_num)]
        calc v < 256 ^ (n + 1) := h
        _ = 256 ^ n * 256 := by ring
      simp only [natToBytesLE, readNatLE, List.cons_append, List.append_eq,
        ih (v / 256) rest hdiv, Option.map_some']
      rw [Nat.mod_add_div]

theorem readChunk_pfx (s : List Nat) :
    ∀ rest, readChunk s.length (s ++ rest) = some (s, rest) := by
  induction s with
  | nil => intro rest; rfl
  | cons b bs ih =>
      intro rest
      simp only [List.length_cons, List.cons_append, List.append_eq, readChunk,
        ih rest, Option.map_some']

theorem readIdentifier_pfx (i : Identifier) (rest : List Nat) :
    readIdentifier (writeIdentifier i ++ rest) = some (i, rest) := by
  simp only [writeIdentifier, readIdentifier, List.cons_append,
    readChunk_pfx i.name rest, Option.map_some']

theorem readIdList_pfx (l : List Identifier) :
    ∀ rest, readIdList l.length (writeIdList l ++ rest) = some (l, rest) := by
  induction l with
  | nil => intro rest; rfl
  | cons i is ih =>
      intro rest
      simp only [writeIdList, List.map_cons, List.flatten_cons, List.length_cons,
        readIdList, List.append_assoc]
      rw [readIdentifier_pfx i (List.flatten (is.map writeIdentifier) ++ rest)]
      have := ih rest
      simp only [writeIdList] at this
      simp only [this, Option.map_some']

theorem readRegister_pfx (r : Register) (rest : List Nat) (h : r.wf = true) :
    readRegister (writeRegister r ++ rest) = some (r, rest) := by
  cases r with
  | locator n =>
      simp only [Register.wf, decide_eq_true_eq] at h
      simp only [writeRegister, readRegister, List.cons_append,
        readNatLE_pfx 8 n rest (by exact h), Option.map_some']
  | member n path =>
      simp only [Register.wf, Bool.and_eq_true, decide_eq_true_eq] at h
      simp only [writeRegister, readRegister, List.cons_append, List.append_assoc]
      rw [readNatLE_pfx 8 n (path.length :: (writeIdList path ++ rest)) h.1.1.1]
      simp only [readIdList_pfx path rest, Option.map_some']

theorem readMode_pfx (m : Mode) (rest : List Nat) :
    readMode (m.toByte :: rest) = some (m, rest) := by
  cases m <;> rfl

theorem readLiteral_pfx (l : Literal) (rest : List Nat) (h : l.wf = true) :
    readLiteral (writeLiteral l ++ rest) = some (l, rest) := by
  obtain ⟨v, m⟩ := l
  simp only [Literal.wf] at h
  cases v with
  | boolean b =>
      cases b <;> cases m <;> rfl
  | field v =>
      simp only [LiteralValue.wf, decide_eq_true_eq] at h
      have hv : v < 256 ^ 32 := lt_trans h (by norm_num [fieldModulus])
      simp only [writeLiteral, LiteralValue.tag, readLiteral, List.cons_append,
        readMode_pfx, readNatLE_pfx 32 v rest hv, Option.map_some']
  | group v =>
      simp only [LiteralValue.wf, decide_eq_true_eq] at h
      have hv : v < 256 ^ 32 := lt_trans h (by norm_num [fieldModulus])
      simp only [writeLiteral, LiteralValue.tag, readLiteral, List.cons_append,
        readMode_pfx, readNatLE_pfx 32 v rest hv, Option.map_some']
  | address v =>
      simp only [LiteralValue.wf, decide_eq_true_eq] at h
      have hv : v < 256 ^ 32 := lt_trans h (by norm_num [fieldModulus])
      simp only [writeLiteral, LiteralValue.tag, readLiteral, List.cons_append,
        readMode_pfx, readNatLE_pfx 32 v rest hv, Option.map_some']
  | scalar v =>
      simp only [LiteralValue.wf, decide_eq_true_eq] at h
      have hv : v < 256 ^ 32 := lt_trans h (by norm_num [scalarModulus])
      simp only [writeLiteral, LiteralValue.tag, readLiteral, List.cons_append,
        readMode_pfx, readNatLE_pfx 32 v rest hv, Option.map_some']
  | intLit s w v =>
      simp only [LiteralValue.wf, decide_eq_true_eq] at h
      have hv : v < 256 ^ (w.bits / 8) := by
        cases w <;> simpa [IntWidth.bits] using h
      cases s <;> cases w <;>
        simp only [writeLiteral, LiteralValue.tag, readLiteral, List.cons_append,
          readMode_pfx, readIntPayload, readNatLE_pfx _ v rest hv, Option.map_some']
  | str s =>
      simp only [LiteralValue.wf, Bool.and_eq_true, decide_eq_true_eq] at h
      have hlen : s.length < 256 ^ 2 := by
        have := h.1
        norm_num at this ⊢
        omega
      simp only [writeLiteral, LiteralValue.tag, readLiteral, List.cons_append,
        readMode_pfx, List.append_assoc]
      rw [readNatLE_pfx 2 s.length (s ++ rest) hlen]
      simp only [readChunk_pfx s rest, Option.map_some']

theorem readOperand_pfx (o : Operand) (rest : List Nat) (h : o.wf = true) :
    readOperand (writeOperand o ++ rest) = some (o, rest) := by
  cases o with
  | literal l =>
      simp only [writeOperand, readOperand, List.cons_append,
        readLiteral_pfx l rest h, Option.map_some']
  | register r =>
      simp only [writeOperand, readOperand, List.cons_append,
        readRegister_pfx r rest h, Option.map_some']

theorem readBinaryOperation_pfx (op : BinaryOperation) (rest : List Nat)
    (h : op.wf = true) :
    readBinaryOperation (writeBinaryOperation op ++ rest) = some (op, rest) := by
  simp only [BinaryOperation.wf, Bool.and_eq_true] at h
  simp only [writeBinaryOperation, readBinaryOperation, List.append_assoc,
    readOperand_pfx op.first _ h.1.1, readOperand_pfx op.second _ h.1.2,
    readRegister_pfx op.destination rest h.2, Option.map_some']

theorem read_le_of_write_le (i : Instruction) (rest : List Nat)
    (h : i.wf = true) :
    Instruction.read_le (Instruction.write_le i ++ rest) = .ok i rest := by
  have hop : i.operation.wf = true := h
  have hb := readBinaryOperation_pfx i.operation rest hop
  cases i <;>
    simp_all only [Instruction.operation, Instruction.write_le,
      Instruction.variant, Instruction.read_le, natToBytesLE,
      List.cons_append, List.nil_append, List.append_assoc, readNatLE,
      Option.map_some', instructionOfVariant] <;>
    simp [hb]

/-! ## The claims -/

/-- Claim C1 (code bug): the claim says a leading 16-bit little-endian
discriminant at or above the number of known variants makes
`Instruction::read_le` return a decode error; the source instead
evaluates `INSTRUCTION_VARIANTS[variant as usize]`, an out-of-bounds
slice index that panics before its "If the index is out of bounds,
return an error" fallback can run. At the failing input `[8, 0]`
(discriminant 8, the variant count) — and for that discriminant
followed by any payload — decoding panics rather than returning an
error. -/
theorem out_of_range_discriminant_panics :
    Instruction.read_le [8, 0] = ReadResult.panicked ∧
      ∀ rest : List Nat, Instruction.read_le (8 :: 0 :: rest) =
        ReadResult.panicked :=
  ⟨rfl, fun _ => rfl⟩

/-- Claim C2: binary round-trip — for every constructible (well-formed)
instruction, decoding the bytes written by `Instruction::write_le`
(the fixed-width little-endian variant discriminant followed by the
operation's own encoding) yields the instruction again with no bytes
left over. -/
theorem binary_roundtrip (i : Instruction) (h : i.wf = true) :
    Instruction.read_le (Instruction.write_le i) = ReadResult.ok i [] := by
  have := read_le_of_write_le i [] h
  simpa using this

/-- Witness for C2 at a concrete instruction with a literal operand and
a member-register operand. -/
theorem binary_roundtrip_witness :
    (Instruction.Add
        ⟨.literal ⟨.intLit true .w16 65535, .Private⟩,
          .register (.member 3 [⟨[97, 98]⟩]), .locator 7⟩).wf = true ∧
      Instruction.read_le
          (Instruction.write_le (Instruction.Add
            ⟨.literal ⟨.intLit true .w16 65535, .Private⟩,
              .register (.member 3 [⟨[97, 98]⟩]), .locator 7⟩)) =
        ReadResult.ok (Instruction.Add
          ⟨.literal ⟨.intLit true .w16 65535, .Private⟩,
            .register (.member 3 [⟨[97, 98]⟩]), .locator 7⟩) [] :=
  ⟨by decide, binary_roundtrip _ (by decide)⟩

/-- Claim C3 counterexample: building inputs → instruction → output
through the API yields a function with a nonempty outputs collection on
which `add_instruction` still succeeds (the source checks only that
inputs exist), refuting "for every Function whose outputs collection is
non-empty, add_instruction fails". -/
theorem add_instruction_after_outputs_succeeds :
    Func.add_input exParams (Func.new exName) (exIn 0) =
        Except.ok ⟨exName, [exIn 0], [], []⟩ ∧
      Func.add_instruction exParams ⟨exName, [exIn 0], [], []⟩ exAdd =
        Except.ok ⟨exName, [exIn 0], [exAdd], []⟩ ∧
      Func.add_output exParams ⟨exName, [exIn 0], [exAdd], []⟩ (exOut 2) =
        Except.ok exBuilt ∧
      exBuilt.outputs ≠ [] ∧
      Func.add_instruction exParams exBuilt exAdd =
        Except.ok ⟨exName, [exIn 0], [exAdd, exAdd], [exOut 2]⟩ := by
  decide

/-- Claim C3 (amended): the builder's phase guards as the source
enforces them — `add_input` fails once instructions or outputs exist,
`add_instruction` fails while inputs are absent (but does not inspect
the outputs), and `add_output` fails while inputs or instructions are
absent; so inputs precede everything and outputs require a prior
instruction, but instructions may still be appended after outputs. -/
theorem phase_guards (N : NetworkParams) (f : Func) (inp : FuncInput)
    (ins : Instruction) (o : FuncOutput) :
    (f.instructions ≠ [] → ∃ e, Func.add_input N f inp = .error e) ∧
      (f.outputs ≠ [] → ∃ e, Func.add_input N f inp = .error e) ∧
      (f.inputs = [] → Func.add_instruction N f ins =
        .error "Cannot add instructions before inputs have been added") ∧
      (f.inputs = [] ∨ f.instructions = [] →
        ∃ e, Func.add_output N f o = .error e) := by
  refine ⟨?_, ?_, ?_, ?_⟩
  · intro h
    have hi : f.instructions.isEmpty = false := by
      simpa [List.isEmpty_iff] using h
    exact ⟨"Cannot add inputs after instructions have been added",
      by simp [Func.add_input, hi]⟩
  · intro h
    have ho : f.outputs.isEmpty = false := by
      simpa [List.isEmpty_iff] using h
    by_cases hi : f.instructions.isEmpty
    · exact ⟨"Cannot add inputs after outputs have been added",
        by simp [Func.add_input, hi, ho]⟩
    · exact ⟨"Cannot add inputs after instructions have been added",
        by simp [Func.add_input, hi]⟩
  · intro h
    have hi : f.inputs.isEmpty = true := by simp [List.isEmpty_iff, h]
    simp [Func.add_instruction, hi]
  · intro h
    rcases h with h | h
    · have hi : f.inputs.isEmpty = true := by simp [List.isEmpty_iff, h]
      exact ⟨"Cannot add outputs before inputs have been added",
        by simp [Func.add_output, hi]⟩
    · have hi : f.instructions.isEmpty = true := by simp [List.isEmpty_iff, h]
      by_cases hin : f.inputs.isEmpty
      · exact ⟨"Cannot add outputs before inputs have been added",
          by simp [Func.add_output, hin]⟩
      · exact ⟨"Cannot add outputs before instructions have been added",
          by simp [Func.add_output, hin, hi]⟩

/-- Witness for the amended C3 at concrete functions. -/
theorem phase_guards_witness :
    (∃ e, Func.add_input exParams exBuilt (exIn 1) = Except.error e) ∧
      ∃ e, Func.add_output exParams (Func.new exName) (exOut 0) =
        Except.error e :=
  ⟨(phase_guards exParams exBuilt (exIn 1) exAdd (exOut 0)).1 (by decide),
   (phase_guards exParams (Func.new exName) (exIn 1) exAdd (exOut 0)).2.2.2
      (Or.inl rfl)⟩

/-- Claim C4 (code bug): each guard reads `len <= MAX`, so a collection
already holding exactly its network maximum still accepts one more
element, reaching `MAX + 1` — contradicting the claim (and the
methods' own doc comments, "will halt if the maximum number … has been
reached"). Evaluated at functions holding exactly the maximum (2, under
the example parameters) of each collection. -/
theorem bounds_off_by_one :
    exParams.MAX_FUNCTION_INPUTS = 2 ∧
      Func.add_input exParams ⟨exName, [exIn 0, exIn 1], [], []⟩ (exIn 2) =
        Except.ok ⟨exName, [exIn 0, exIn 1, exIn 2], [], []⟩ ∧
      exParams.MAX_FUNCTION_INSTRUCTIONS = 2 ∧
      Func.add_instruction exParams ⟨exName, [exIn 0], [exAdd, exAdd], []⟩
          exAdd =
        Except.ok ⟨exName, [exIn 0], [exAdd, exAdd, exAdd], []⟩ ∧
      exParams.MAX_FUNCTION_OUTPUTS = 2 ∧
      Func.add_output exParams
          ⟨exName, [exIn 0], [exAdd], [exOut 0, exOut 1]⟩ (exOut 2) =
        Except.ok ⟨exName, [exIn 0], [exAdd], [exOut 0, exOut 1, exOut 2]⟩ := by
  decide

/-- Claim C10: duplicate handling is asymmetric — `add_input` with an
already-present statement always returns an error, while `add_output`
with an already-present statement (in a state where adding outputs is
otherwise legal) returns success and leaves the function unchanged, the
duplicate silently absorbed by the `IndexSet`. -/
theorem duplicate_asymmetry (N : NetworkParams) (f : Func) (inp : FuncInput)
    (o : FuncOutput) :
    (f.inputs.contains inp = true → ∃ e, Func.add_input N f inp = .error e) ∧
      (f.inputs ≠ [] → f.instructions ≠ [] →
        f.outputs.length ≤ N.MAX_FUNCTION_OUTPUTS →
        f.outputs.contains o = true → Func.add_output N f o = .ok f) := by
  constructor
  · intro h
    unfold Func.add_input
    repeat' split
    all_goals exact ⟨_, rfl⟩
  · intro h1 h2 h3 h4
    have hi : f.inputs.isEmpty = false := by simpa [List.isEmpty_iff] using h1
    have hn : f.instructions.isEmpty = false := by
      simpa [List.isEmpty_iff] using h2
    have hmem : o ∈ f.outputs := by simpa using h4
    simp [Func.add_output, hi, hn, h3, indexSetInsert, hmem]

/-- Witness for C10: a duplicate input is rejected; re-adding the built
function's own output statement succeeds and changes nothing. -/
theorem duplicate_asymmetry_witness :
    (∃ e, Func.add_input exParams ⟨exName, [exIn 0], [], []⟩ (exIn 0) =
        Except.error e) ∧
      Func.add_output exParams exBuilt (exOut 2) = Except.ok exBuilt :=
  ⟨(duplicate_asymmetry exParams ⟨exName, [exIn 0], [], []⟩ (exIn 0)
        (exOut 2)).1 (by decide),
   (duplicate_asymmetry exParams exBuilt (exIn 0) (exOut 2)).2 (by decide)
      (by decide) (by decide) (by decide)⟩

theorem evalInstructions_append (pre rest : List Instruction) (st st₂ : Stack)
    (h : evalInstructions pre st = (st₂, none)) :
    evalInstructions (pre ++ rest) st = evalInstructions rest st₂ := by
  induction pre generalizing st with
  | nil =>
      simp only [evalInstructions] at h
      cases h
      simp
  | cons i is ih =>
      simp only [evalInstructions, List.cons_append] at h ⊢
      cases hi : i.evaluate st with
      | ok st₃ =>
          rw [hi] at h
          exact ih st₃ h
      | error e =>
          rw [hi] at h
          cases h

/-- Claim C5: `Function::evaluate` fails with the source's message when
there are no inputs or no instructions; otherwise it runs the
instructions in insertion order and, whenever the instructions split as
a succeeding prefix followed by a failing instruction, it stops there,
returns that instruction's error unchanged, and leaves the register
file exactly as the successful prefix wrote it — no rollback. -/
theorem evaluate_sequencing (f : Func) (st : Stack) :
    (f.inputs = [] →
      f.evaluate st =
        (st, some "Cannot evaluate a function without input statements")) ∧
      (f.inputs ≠ [] → f.instructions = [] →
        f.evaluate st =
          (st, some "Cannot evaluate a function without instructions")) ∧
      (f.inputs ≠ [] → f.instructions ≠ [] →
        f.evaluate st = evalInstructions f.instructions st) ∧
      ∀ pre i post st₂ e, f.inputs ≠ [] →
        f.instructions = pre ++ i :: post →
        evalInstructions pre st = (st₂, none) →
        Instruction.evaluate i st₂ = .error e →
        f.evaluate st = (st₂, some e) := by
  have base : ∀ hin : f.inputs ≠ [], ∀ hins : f.instructions ≠ [],
      f.evaluate st = evalInstructions f.instructions st := by
    intro hin hins
    have hi : f.inputs.isEmpty = false := by simpa [List.isEmpty_iff] using hin
    have hn : f.instructions.isEmpty = false := by
      simpa [List.isEmpty_iff] using hins
    simp [Func.evaluate, hi, hn]
  refine ⟨?_, ?_, base, ?_⟩
  · intro h
    have hi : f.inputs.isEmpty = true := by simp [List.isEmpty_iff, h]
    simp [Func.evaluate, hi]
  · intro hin h
    have hi : f.inputs.isEmpty = false := by simpa [List.isEmpty_iff] using hin
    have hn : f.instructions.isEmpty = true := by simp [List.isEmpty_iff, h]
    simp [Func.evaluate, hi, hn]
  · intro pre i post st₂ e hin hsplit hpre hfail
    have hins : f.instructions ≠ [] := by simp [hsplit]
    rw [base hin hins, hsplit, evalInstructions_append pre (i :: post) st st₂ hpre]
    simp [evalInstructions, hfail]

/-- Witness for C5: a three-instruction function whose second
instruction divides by zero stops after the first instruction, keeps
the register it wrote, and surfaces the division error unchanged. -/
theorem evaluate_sequencing_witness :
    Func.evaluate exSeq [] =
      ([(Register.locator 2, Value.literal (u8lit 3 .Public))],
        some "Division by zero") :=
  (evaluate_sequencing exSeq []).2.2.2 [exAdd] exDivZero [exAdd]
    [(Register.locator 2, Value.literal (u8lit 3 .Public))] "Division by zero"
    (by decide) (by decide) (by decide) (by decide)

/-- Claim C7: for same-width integer operands whose exact arithmetic
result leaves the width's range, the non-wrapped opcode fails while the
wrapped counterpart succeeds with the result reduced modulo
`2 ^ bitwidth`; division by zero fails for both forms. Stated through
`Instruction::evaluate` on instructions holding the two integer
literals as operands. -/
theorem wrapped_vs_nonwrapped (k : ArithKind) (s : Bool) (w : IntWidth)
    (va vb : Nat) (ma mb : Mode) (dst : Register) (st : Stack)
    (ha : va < 2 ^ w.bits) (hb : vb < 2 ^ w.bits) :
    (∀ r, intResult k s w va vb = some r → inRange s w r = false →
      Instruction.evaluate (nonWrappedInstr k (mkIntBinary s w va vb ma mb dst))
          st = .error (overflowMsg k) ∧
        Instruction.evaluate (wrappedInstr k (mkIntBinary s w va vb ma mb dst))
            st =
          .ok (st.store dst
            (Value.literal ⟨.intLit s w (wrap w r), ma.combine mb⟩))) ∧
      (intResult k s w va vb = none →
        Instruction.evaluate (nonWrappedInstr k (mkIntBinary s w va vb ma mb dst))
            st = .error "Division by zero" ∧
          Instruction.evaluate (wrappedInstr k (mkIntBinary s w va vb ma mb dst))
              st = .error "Division by zero") := by
  constructor
  · intro r hr hir
    cases k <;>
      simp [nonWrappedInstr, wrappedInstr, mkIntBinary, Instruction.evaluate,
        BinaryOperation.evaluate, resolveOperand, evalArith, evalIntOp, hr, hir,
        Except.map]
  · intro hnone
    cases k <;>
      simp [nonWrappedInstr, wrappedInstr, mkIntBinary, Instruction.evaluate,
        BinaryOperation.evaluate, resolveOperand, evalArith, evalIntOp, hnone,
        Except.map]

/-- Witness for C7: `2u8 + 255u8` (the spec's concrete scenario)
overflows — `add` halts and `add.w` writes `1u8` — evaluated through
the instruction dispatcher. -/
theorem wrapped_vs_nonwrapped_witness :
    2 < 2 ^ IntWidth.w8.bits ∧ 255 < 2 ^ IntWidth.w8.bits ∧
      intResult .add false .w8 2 255 = some 257 ∧
      inRange false .w8 257 = false ∧
      Instruction.evaluate
          (nonWrappedInstr .add
            (mkIntBinary false .w8 2 255 .Public .Public (.locator 2))) [] =
        .error (overflowMsg .add) ∧
      Instruction.evaluate
          (wrappedInstr .add
            (mkIntBinary false .w8 2 255 .Public .Public (.locator 2))) [] =
        .ok (Stack.store [] (.locator 2)
          (Value.literal ⟨.intLit false .w8 (wrap .w8 257),
            Mode.combine .Public .Public⟩)) := by
  refine ⟨by decide, by decide, by decide, by decide, ?_, ?_⟩
  · exact ((wrapped_vs_nonwrapped .add false .w8 2 255 .Public .Public
      (.locator 2) [] (by decide) (by decide)).1 257 (by decide) (by decide)).1
  · exact ((wrapped_vs_nonwrapped .add false .w8 2 255 .Public .Public
      (.locator 2) [] (by decide) (by decide)).1 257 (by decide) (by decide)).2

/-- Claim C8: the 1024-bit capacity boundary of the Pedersen hash — an
input value whose canonical bit length is at most 1024 evaluates
successfully (writing the digest to the destination), and one whose bit
length exceeds 1024 fails with the capacity message, surfaced to the
caller of `evaluate`. -/
theorem hash_capacity (op : UnaryOperation) (st : Stack) (v : Value)
    (hres : resolveOperand st op.first = some v) :
    (v.toBits.length ≤ 1024 →
      Ped1024.evaluate op st =
        .ok (st.store op.destination
          (Value.literal ⟨.field (pedersenHash1024 v.toBits), v.mode⟩))) ∧
      (1024 < v.toBits.length →
        Ped1024.evaluate op st =
          .error "The Pedersen hash input cannot exceed 1024 bits.") := by
  constructor
  · intro h
    simp [Ped1024.evaluate, hres, h]
  · intro h
    simp [Ped1024.evaluate, hres, Nat.not_le_of_lt h]

/-- Witness for C8: the 129-character string of the halt test (1032
bits) fails with the capacity message; a one-bit boolean input
succeeds. -/
theorem hash_capacity_witness :
    Ped1024.evaluate ⟨.literal ⟨.boolean true, .Private⟩, .locator 1⟩ [] =
        .ok (Stack.store [] (.locator 1)
          (Value.literal
            ⟨.field (pedersenHash1024 (Value.literal
              ⟨.boolean true, .Private⟩).toBits),
              (Value.literal ⟨.boolean true, .Private⟩).mode⟩)) ∧
      Ped1024.evaluate ⟨.literal exStr129, .locator 1⟩ [] =
        .error "The Pedersen hash input cannot exceed 1024 bits." :=
  ⟨(hash_capacity ⟨.literal ⟨.boolean true, .Private⟩, .locator 1⟩ []
      (Value.literal ⟨.boolean true, .Private⟩) rfl).1 (by decide),
   (hash_capacity ⟨.literal exStr129, .locator 1⟩ []
      (Value.literal exStr129) rfl).2 (by decide)⟩

/-- Claim C9 counterexample: on the `test_composite` input — a
composite with one public and one private member — the written literal
is private, while the least-restrictive (most public) visibility among
the constituent literals is public; the hash does not carry the
least-restrictive visibility, refuting the claim as stated. -/
theorem hash_visibility_counterexample :
    Ped1024.evaluate exHashOp exStack =
        .ok [(Register.locator 0, exComposite),
          (Register.locator 1, Value.literal
            ⟨.field
              6122249396247477588925765696834100286827340493907798245233656838221917119242,
              .Private⟩)] ∧
      exComposite.leastRestrictiveMode = .Public ∧
      (Mode.Private : Mode) ≠ .Public := by
  refine ⟨by decide, by decide, by decide⟩

/-- Claim C9 (amended): the hash writes a single field-element literal
carrying the most restrictive visibility — public exactly when every
constituent literal of the input is public, private as soon as any is
private — and hashing the boolean literal `true` yields the field value
6122249396247477588925765696834100286827340493907798245233656838221917119242,
with the input's visibility. -/
theorem hash_visibility (op : UnaryOperation) (st : Stack) (v : Value)
    (m : Mode) (hres : resolveOperand st op.first = some v)
    (hlen : v.toBits.length ≤ 1024) :
    Ped1024.evaluate op st =
        .ok (st.store op.destination
          (Value.literal ⟨.field (pedersenHash1024 v.toBits), v.mode⟩)) ∧
      (v.mode = .Public ↔
        v.constituents.all (fun l => l.mode = Mode.Public) = true) ∧
      (v = .literal ⟨.boolean true, m⟩ →
        Ped1024.evaluate op st =
          .ok (st.store op.destination
            (Value.literal
              ⟨.field
                6122249396247477588925765696834100286827340493907798245233656838221917119242,
                m⟩))) := by
  refine ⟨by simp [Ped1024.evaluate, hres, hlen], ?_, ?_⟩
  · cases v with
    | literal l =>
        cases hlm : l.mode <;> simp [Value.mode, Value.constituents, hlm]
    | composite n mems =>
        by_cases hall : mems.all (fun l => l.mode = Mode.Public) = true <;>
          simp [Value.mode, Value.constituents, hall]
  · intro hv
    subst hv
    have hph : pedersenHash1024 [true] =
        6122249396247477588925765696834100286827340493907798245233656838221917119242 := by
      decide
    simp [Ped1024.evaluate, hres, Value.toBits, LiteralValue.toBits, hph,
      Value.mode]

/-- Witness for the amended C9: hashing a private `true` writes the
pinned field value with private visibility. -/
theorem hash_visibility_witness :
    Ped1024.evaluate ⟨.literal ⟨.boolean true, .Private⟩, .locator 1⟩ [] =
      .ok (Stack.store [] (.locator 1)
        (Value.literal
          ⟨.field
            6122249396247477588925765696834100286827340493907798245233656838221917119242,
            .Private⟩)) :=
  (hash_visibility ⟨.literal ⟨.boolean true, .Private⟩, .locator 1⟩ []
    (Value.literal ⟨.boolean true, .Private⟩) .Private rfl (by decide)).2.2 rfl

/-! ## Text round-trip lemmas

For each sub-parser `p` with printer `pr`, the exactness fact: whenever
`p s` succeeds with value `a` and remainder `rest`, the consumed prefix
is exactly `pr a`, i.e. `pr a ++ rest = s`. Composing these along the
grammar gives the parse-then-print law. -/

theorem ptag_eq (t s rest : List Char) (h : ptag t s = some rest) :
    t ++ rest = s := by
  unfold ptag at h
  split at h
  · rename_i hp
    cases h
    rw [List.isPrefixOf_iff_prefix] at hp
    exact List.prefix_iff_eq_append.mp hp
  · cases h

theorem digitVal_lt (c : Char) (h : c ∈ digitChars) : digitVal c < 10 := by
  fin_cases h <;> decide

theorem digitChar_digitVal (c : Char) (h : c ∈ digitChars) :
    digitChar (digitVal c) = c := by
  fin_cases h <;> rfl

theorem digitVal_ne_zero (c : Char) (h : c ∈ digitChars) (hz : ¬c = '0') :
    digitVal c ≠ 0 := by
  fin_cases h <;> simp_all <;> decide

theorem isDigitCh_mem (c : Char) (h : isDigitCh c = true) : c ∈ digitChars := by
  simpa [isDigitCh] using h

theorem natToDigits_digitsToNat (ds : List Char)
    (hd : ∀ c ∈ ds, isDigitCh c = true) (hc : canonicalDigits ds = true) :
    natToDigits (digitsToNat ds) = ds := by
  cases ds with
  | nil => simp [canonicalDigits] at hc
  | cons c rest =>
      by_cases hz : c = '0'
      · subst hz
        have hrest : rest = [] := by
          simpa [canonicalDigits, List.isEmpty_iff] using hc
        subst hrest
        decide
      · have hmem : ∀ l ∈ ((c :: rest).map digitVal).reverse, l < 10 := by
          intro l hl
          rw [List.mem_reverse, List.mem_map] at hl
          obtain ⟨a, ha, rfl⟩ := hl
          exact digitVal_lt a (isDigitCh_mem a (hd a ha))
        have hne : ((c :: rest).map digitVal).reverse ≠ [] := by simp
        have hlast : ∀ h : ((c :: rest).map digitVal).reverse ≠ [],
            (((c :: rest).map digitVal).reverse).getLast h ≠ 0 := by
          intro h
          rw [List.getLast_reverse]
          simp only [List.map_cons, List.head_cons]
          exact digitVal_ne_zero c (isDigitCh_mem c (hd c (by simp))) hz
        have hdig := Nat.digits_ofDigits 10 (by norm_num)
          (((c :: rest).map digitVal).reverse) hmem hlast
        have hn0 : Nat.ofDigits 10 (((c :: rest).map digitVal).reverse) ≠ 0 := by
          intro h0
          rw [h0] at hdig
          simp only [Nat.digits_zero] at hdig
          exact hne hdig.symm
        unfold natToDigits digitsToNat
        rw [if_neg hn0, hdig, List.map_reverse, List.reverse_reverse,
          List.map_map]
        rw [List.map_congr_left, List.map_id]
        intro a ha
        exact digitChar_digitVal a (isDigitCh_mem a (hd a ha))

theorem pnum_eq (s : List Char) (n : Nat) (rest : List Char)
    (h : pnum s = some (n, rest)) : natToDigits n ++ rest = s := by
  unfold pnum at h
  split at h
  · cases h
  · split at h
    · rename_i hcanon
      cases h
      have hd : ∀ c ∈ s.takeWhile isDigitCh, isDigitCh c = true :=
        fun c hc => List.mem_takeWhile_imp hc
      rw [natToDigits_digitsToNat _ hd hcanon]
      exact List.takeWhile_append_dropWhile isDigitCh s
    · cases h

theorem pident_eq (s : List Char) (i : Identifier) (rest : List Char)
    (h : pident s = some (i, rest)) : printIdent i ++ rest = s := by
  unfold pident at h
  split at h
  · cases h
  · split at h
    · cases h
      have hmap : (List.map Char.toNat (s.takeWhile isIdCh)).map Char.ofNat =
          s.takeWhile isIdCh := by
        rw [List.map_map]
        rw [List.map_congr_left, List.map_id]
        intro a _
        exact Char.ofNat_toNat a
      unfold printIdent
      simp only [hmap]
      exact List.takeWhile_append_dropWhile isIdCh s
    · cases h

theorem ppathFuel_eq (fuel : Nat) :
    ∀ s path rest, ppathFuel fuel s = (path, rest) →
      printPath path ++ rest = s := by
  induction fuel with
  | zero =>
      intro s path rest h
      unfold ppathFuel at h
      cases h
      rfl
  | succ n ih =>
      intro s path rest h
      unfold ppathFuel at h
      split at h
      · rename_i s₁
        split at h
        · cases h
          rfl
        · rename_i i s₂ hident
          cases h
          have hrec := ih s₂ (ppathFuel n s₂).1 (ppathFuel n s₂).2 rfl
          have hid := pident_eq s₁ i s₂ hident
          simp only [printPath, List.map_cons, List.flatten_cons,
            List.cons_append, List.append_assoc] at hrec ⊢
          rw [hrec, hid]
      · cases h
        rfl

theorem pregister_eq (s : List Char) (r : Register) (rest : List Char)
    (h : pregister s = some (r, rest)) : printRegister r ++ rest = s := by
  unfold pregister at h
  split at h
  · rename_i s₁
    split at h
    · cases h
    · rename_i n s₂ hnum
      split at h
      · rcases hps : ppathFuel s₂.length s₂ with ⟨path, s₃⟩
        rw [hps] at h
        dsimp only at h
        have hn := pnum_eq s₁ n s₂ hnum
        have hp := ppathFuel_eq s₂.length s₂ path s₃ hps
        by_cases hempty : path.isEmpty
        · rw [if_pos hempty] at h
          cases h
          have hpe : path = [] := by simpa [List.isEmpty_iff] using hempty
          subst hpe
          simp only [printPath, List.map_nil, List.flatten_nil,
            List.nil_append] at hp
          subst hp
          simp only [printRegister, List.cons_append]
          rw [hn]
        · rw [if_neg hempty] at h
          cases h
          simp only [printRegister, printPath, List.cons_append,
            List.append_assoc]
          simp only [printPath] at hp
          rw [hp, hn]
      · cases h
  · cases h

theorem ptryKinds_eq (l : List (Bool × IntWidth)) :
    ∀ s sw rest, ptryKinds l s = some (sw, rest) →
      intSuffix sw.1 sw.2 ++ rest = s := by
  induction l with
  | nil => intro s sw rest h; cases h
  | cons a more ih =>
      intro s sw rest h
      unfold ptryKinds at h
      split at h
      · rename_i r₁ htag
        cases h
        exact ptag_eq _ s rest htag
      · exact ih s sw rest h

theorem psuffix_eq (s : List Char) (sw : Bool × IntWidth) (rest : List Char)
    (h : psuffix s = some (sw, rest)) : intSuffix sw.1 sw.2 ++ rest = s :=
  ptryKinds_eq allIntKinds s sw rest h

theorem intWidth_bits_pos (w : IntWidth) : 1 ≤ w.bits := by
  cases w <;> simp [IntWidth.bits]

theorem intWidth_pow_split (w : IntWidth) :
    2 ^ w.bits = 2 * 2 ^ (w.bits - 1) := by
  have h := intWidth_bits_pos w
  calc 2 ^ w.bits = 2 ^ (w.bits - 1 + 1) := by rw [Nat.sub_add_cancel h]
  _ = 2 * 2 ^ (w.bits - 1) := by rw [pow_succ, Nat.mul_comm]

theorem pnumericTok_eq (s : List Char) (l : Literal) (rest : List Char)
    (h : pnumericTok s = some (l, rest)) : printLiteralTok l ++ rest = s := by
  unfold pnumericTok at h
  split at h
  · cases h
  · rename_i n s₁ hnum
    have hn := pnum_eq s n s₁ hnum
    split at h
    · rename_i r₁ hfield
      split at h
      · cases h
        have hf := ptag_eq _ s₁ rest hfield
        simp only [printLiteralTok, List.append_assoc]
        rw [hf, hn]
      · cases h
    · split at h
      · cases h
      · rename_i p hsuf
        obtain ⟨⟨signed, w⟩, rest₁⟩ := p
        split at h
        · rename_i hrange
          cases h
          have hs := psuffix_eq s₁ (signed, w) rest₁ hsuf
          simp only at hrange
          simp only [printLiteralTok]
          rw [if_neg]
          · simp only [List.append_assoc]
            rw [hs, hn]
          · rintro ⟨hsg, hge, hpos⟩
            rw [hsg] at hrange
            simp only [cond_true] at hrange
            exact absurd hrange (Nat.not_lt_of_le hge)
        · cases h

theorem pliteralTok_eq (s : List Char) (l : Literal) (rest : List Char)
    (h : pliteralTok s = some (l, rest)) : printLiteralTok l ++ rest = s := by
  unfold pliteralTok at h
  split at h
  · rename_i r₁ htrue
    cases h
    exact ptag_eq _ s rest htrue
  · split at h
    · rename_i r₁ hfalse
      cases h
      exact ptag_eq _ s rest hfalse
    · split at h
      · rename_i s₁ hminus
        have hm := ptag_eq ['-'] s s₁ hminus
        split at h
        · cases h
        · rename_i n s₂ hnum
          split at h
          · cases h
          · rename_i p hsuf
            obtain ⟨⟨sg, w⟩, rest₁⟩ := p
            split at h
            · rename_i hsg
              simp only at hsg
              subst hsg
              split at h
              · rename_i hrange
                cases h
                simp only at hrange
                obtain ⟨hpos, hle⟩ := hrange
                have hn := pnum_eq s₁ n s₂ hnum
                have hs := psuffix_eq s₂ (true, w) rest₁ hsuf
                have hsplit := intWidth_pow_split w
                simp only [printLiteralTok]
                rw [if_pos]
                · have hval : 2 ^ w.bits - (2 ^ w.bits - n) = n := by
                    have : n < 2 ^ w.bits := by omega
                    omega
                  rw [hval]
                  simp only [List.cons_append, List.append_assoc]
                  rw [hs, hn, ← hm]
                  rfl
                · refine ⟨by trivial, by omega, by omega⟩
              · cases h
            · cases h
      · exact pnumericTok_eq s l rest h

theorem poperand_eq (s : List Char) (o : Operand) (rest : List Char)
    (h : poperand s = some (o, rest)) : printOperand o ++ rest = s := by
  unfold poperand at h
  split at h
  · rename_i l r₁ hlit
    cases h
    exact pliteralTok_eq s l rest hlit
  · split at h
    · rename_i r r₁ hreg
      cases h
      exact pregister_eq s r rest hreg
    · cases h

theorem pbinaryBody_eq (s : List Char) (op : BinaryOperation)
    (rest : List Char) (h : pbinaryBody s = some (op, rest)) :
    printBinBody op ++ rest = s := by
  unfold pbinaryBody at h
  split at h
  · cases h
  · rename_i first s₁ hfirst
    split at h
    · cases h
    · rename_i s₂ hsp
      split at h
      · cases h
      · rename_i second s₃ hsecond
        split at h
        · cases h
        · rename_i s₄ hinto
          split at h
          · cases h
          · rename_i dst s₅ hdst
            cases h
            have h1 := poperand_eq s first s₁ hfirst
            have h2 := ptag_eq [' '] s₁ s₂ hsp
            have h3 := poperand_eq s₂ second s₃ hsecond
            have h4 := ptag_eq [' ', 'i', 'n', 't', 'o', ' '] s₃ s₄ hinto
            have h5 := pregister_eq s₄ dst rest hdst
            simp only [List.cons_append, List.nil_append] at h2 h4
            simp only [printBinBody, List.cons_append, List.append_assoc,
              List.nil_append]
            rw [h5, h4, h3, h2, h1]

theorem pvariant_eq (tok : List Char) (mk : BinaryOperation → Instruction)
    (s : List Char) (i : Instruction) (rest : List Char)
    (h : pvariant tok mk s = some (i, rest))
    (htok : ∀ op, opcodeTok (mk op) = tok)
    (hop : ∀ op, (mk op).operation = op) :
    opcodeTok i ++ ' ' :: printBinBody i.operation ++ rest = s := by
  unfold pvariant at h
  split at h
  · cases h
  · rename_i s₁ h1
    split at h
    · cases h
    · rename_i s₂ h2
      split at h
      · cases h
      · rename_i op rest₁ h3
        cases h
        have hb := pbinaryBody_eq s₂ op rest h3
        have ht := ptag_eq tok s s₁ h1
        have hsp := ptag_eq [' '] s₁ s₂ h2
        rw [htok op, hop op, ← ht, ← hsp]
        simp only [List.cons_append, List.nil_append, List.append_assoc]
        rw [hb]

/-- Claim C6: text round-trip — whenever `Instruction::parse` accepts a
string, printing the parsed instruction reproduces exactly the consumed
text: the printed form followed by the unconsumed remainder equals the
input after sanitization of the leading whitespace and comments. -/
theorem text_roundtrip (s : List Char) (i : Instruction) (rest : List Char)
    (h : Instruction.parse s = some (i, rest)) :
    Instruction.print i ++ rest = sanitize s := by
  unfold Instruction.parse at h
  simp only at h
  split at h
  · cases h
  · rename_i p s₁ hstep
    split at h
    · cases h
    · rename_i rest₁ hsemi
      cases h
      have hsem := ptag_eq [';'] s₁ rest hsemi
      have hbody : opcodeTok i ++ ' ' :: printBinBody i.operation ++ s₁ =
          sanitize s := by
        split at hstep
        · rename_i r hv
          cases hstep
          exact pvariant_eq _ _ _ _ _ hv (fun _ => rfl) (fun _ => rfl)
        ·
          split at hstep
          · rename_i r hv
            cases hstep
            exact pvariant_eq _ _ _ _ _ hv (fun _ => rfl) (fun _ => rfl)
          ·
            split at hstep
            · rename_i r hv
              cases hstep
              exact pvariant_eq _ _ _ _ _ hv (fun _ => rfl) (fun _ => rfl)
            ·
              split at hstep
              · rename_i r hv
                cases hstep
                exact pvariant_eq _ _ _ _ _ hv (fun _ => rfl) (fun _ => rfl)
              ·
                split at hstep
                · rename_i r hv
                  cases hstep
                  exact pvariant_eq _ _ _ _ _ hv (fun _ => rfl) (fun _ => rfl)
                ·
                  split at hstep
                  · rename_i r hv
                    cases hstep
                    exact pvariant_eq _ _ _ _ _ hv (fun _ => rfl) (fun _ => rfl)
                  ·
                    split at hstep
                    · rename_i r hv
                      cases hstep
                      exact pvariant_eq _ _ _ _ _ hv (fun _ => rfl) (fun _ => rfl)
                    ·
                      split at hstep
                      · rename_i r hv
                        cases hstep
                        exact pvariant_eq _ _ _ _ _ hv (fun _ => rfl) (fun _ => rfl)
                      · cases hstep
      rw [Instruction.print, ← hbody, ← hsem]
      simp [List.append_assoc]

/-- Witness for C6: parsing `add r0 r1 into r2;` consumes the whole
string, and printing the parsed instruction reproduces it. -/
theorem text_roundtrip_witness :
    Instruction.parse (String.toList "add r0 r1 into r2;") =
        some (Instruction.Add ⟨.register (.locator 0), .register (.locator 1),
          .locator 2⟩, []) ∧
      Instruction.print (Instruction.Add ⟨.register (.locator 0),
          .register (.locator 1), .locator 2⟩) ++ ([] : List Char) =
        sanitize (String.toList "add r0 r1 into r2;") :=
  ⟨by decide, text_roundtrip _ _ _ (by decide)⟩

end SnarkVM
